import Mathlib

/-!
Verification of the credential security core of a browser password-manager
extension (PIN-gated vault with per-record authenticated encryption).

The development shallowly embeds the JavaScript source:

* `src/utils/encryption.js` — PBKDF2 key derivation, AES-GCM field
  encryption, `encryptCredential` / `decryptCredential`, hex codecs.
* `src/utils/pinAuth.js` — PIN hashing/enrollment, XOR session-PIN
  obfuscation, `createSession` / `getSessionPin` / `extendSession`.
* `public/detectLogin.js` — the popup's vault orchestration: the load
  effect's decrypt loop and plaintext-migration block, `performSave`'s
  display rebuild, and `onClearCorrupted` (purge).
* `components/PinSetup.jsx` — enrollment form validation.

The WebCrypto primitives (AES-GCM, PBKDF2, SHA-256) are external to the
repository; they are modelled as ideal primitives: a derived key is the
pair (pin, salt bytes), and an AES-GCM ciphertext is an opaque value
recording the key, the nonce and the payload, which decrypts exactly when
the same key and nonce are presented (the AEAD tag check) and fails
otherwise.  Base64 transport of ciphertext bytes is absorbed into the
opaque ciphertext value.  The hex codecs (`arrayBufferToHex`,
`hexToUint8Array`) and every piece of vault logic are embedded directly
from the source.  Randomness (`crypto.getRandomValues`) is passed in as
explicit parameters/supplies.  Machine bytes are `Nat` with explicit
`< 256` bounds where they matter.
-/

/-- Hex digit character for a value below 16, as produced by JavaScript
`Number.prototype.toString(16)` (lowercase). -/
def hexDigitChar (n : Nat) : Char :=
  if n < 10 then Char.ofNat (48 + n) else Char.ofNat (87 + n)

/-- Embeds one step of `arrayBufferToHex` (encryption.js lines 183-188):
`b.toString(16).padStart(2, '0')` for a byte `b < 256`. -/
def byteToHexL (b : Nat) : List Char :=
  [hexDigitChar (b / 16 % 16), hexDigitChar (b % 16)]

/-- Embeds `arrayBufferToHex` (encryption.js): map each byte to its
two-character lowercase hex form and join. -/
def bytesToHexL (bs : List Nat) : List Char :=
  (bs.map byteToHexL).flatten

/-- String form of `arrayBufferToHex`. -/
def bytesToHexS (bs : List Nat) : String :=
  String.mk (bytesToHexL bs)

/-- Whether a character is a hexadecimal digit as accepted by JavaScript
`parseInt(_, 16)` (case-insensitive). -/
def isHexDigitB (c : Char) : Bool :=
  (48 ≤ c.toNat && c.toNat ≤ 57) ||
  (97 ≤ c.toNat && c.toNat ≤ 102) ||
  (65 ≤ c.toNat && c.toNat ≤ 70)

/-- Numeric value of a hexadecimal digit character. -/
def hexDigitVal (c : Char) : Nat :=
  if 48 ≤ c.toNat && c.toNat ≤ 57 then c.toNat - 48
  else if 97 ≤ c.toNat && c.toNat ≤ 102 then c.toNat - 87
  else c.toNat - 55

/-- Embeds `parseInt(hex.substr(i, 2), 16)` on a two-character slice.
JavaScript yields `NaN` when the first character is not a hex digit, and
`NaN` is coerced to `0` on storage into a `Uint8Array`; a valid first
digit followed by an invalid character parses the first digit alone. -/
def parseHexPair (c1 c2 : Char) : Nat :=
  if isHexDigitB c1 then
    if isHexDigitB c2 then hexDigitVal c1 * 16 + hexDigitVal c2
    else hexDigitVal c1
  else 0

/-- Embeds `parseInt` of a single trailing character (odd-length input). -/
def parseHexOne (c : Char) : Nat :=
  if isHexDigitB c then hexDigitVal c else 0

/-- Embeds `hexToUint8Array` (encryption.js lines 190-196): consume the
hex string two characters at a time. -/
def hexToBytesL : List Char → List Nat
  | [] => []
  | [c] => [parseHexOne c]
  | c1 :: c2 :: rest => parseHexPair c1 c2 :: hexToBytesL rest

/-- String form of `hexToUint8Array`. -/
def hexToBytesS (s : String) : List Nat :=
  hexToBytesL s.toList

/-- A PBKDF2-derived AES key, modelled ideally as the pair of its inputs
(`deriveKeyFromPin` in encryption.js: PBKDF2-SHA-256, 100000 iterations,
over the PIN and a record-specific salt). -/
structure GcmKey where
  pin : String
  saltBytes : List Nat
deriving DecidableEq

/-- Embeds `deriveKeyFromPin(pin, salt)` under the ideal-KDF model. -/
def deriveKeyFromPin (pin : String) (salt : List Nat) : GcmKey :=
  ⟨pin, salt⟩

/-- A stored field value.  In JavaScript every stored field is a string;
the model distinguishes strings that are the base64 transport of a real
AES-GCM ciphertext (constructor `ct`, recording key, nonce and payload)
from all other strings (`plain`).  Encrypting an arbitrary string — even
one that happens to be ciphertext — wraps it in a further `ct` layer,
exactly as AES-GCM re-encrypts the base64 text. -/
inductive FieldVal where
  | plain : String → FieldVal
  | ct : GcmKey → List Nat → FieldVal → FieldVal
deriving DecidableEq

/-- Embeds `encryptText(text, key, iv)`: ideal AEAD encryption. -/
def encryptText (v : FieldVal) (key : GcmKey) (iv : List Nat) : FieldVal :=
  .ct key iv v

/-- Embeds `decryptText(encryptedText, key, iv)`: AES-GCM decryption
succeeds exactly when the presented key and nonce match the ones the
ciphertext was produced under (the 128-bit tag check); on any other
input it throws, modelled as `none`. -/
def decryptText (v : FieldVal) (key : GcmKey) (iv : List Nat) : Option FieldVal :=
  match v with
  | .plain _ => none
  | .ct k i payload => if k = key ∧ i = iv then some payload else none

/-- A credential record as persisted or displayed (`rf_creds` entries).
JavaScript objects are dynamic; `iv`/`salt` are `Option` (absent field =
`none`), ciphertext-bearing string fields are `FieldVal`, and advisory
metadata passes through untouched. -/
structure Cred where
  id : Nat
  site : FieldVal
  username : FieldVal
  password : FieldVal
  iv : Option String
  salt : Option String
  favicon : String
  riskScore : Option Int
  riskFactors : List (String × Int)
deriving DecidableEq

/-- Embeds `encryptCredential(credential, pin)` (encryption.js lines
107-131) with the two fresh random draws (`generateSalt`, `generateIV`)
made explicit parameters: derive a key from the PIN and the fresh salt,
encrypt `site`, `username`, `password` under the same key/IV, store the
salt and IV in hex, and pass metadata through. -/
def encryptCredential (c : Cred) (pin : String) (saltB ivB : List Nat) : Cred :=
  let key := deriveKeyFromPin pin saltB
  { id := c.id
    site := encryptText c.site key ivB
    username := encryptText c.username key ivB
    password := encryptText c.password key ivB
    iv := some (bytesToHexS ivB)
    salt := some (bytesToHexS saltB)
    favicon := c.favicon
    riskScore := c.riskScore
    riskFactors := c.riskFactors }

/-- Embeds `decryptCredential(encryptedCredential, pin)` (encryption.js
lines 139-161): recover the IV and salt from their hex forms, re-derive
the key, decrypt the three fields (any failure aborts the record, the
thrown error modelled as `none`), and return the decrypted record, which
carries no `iv`/`salt` fields. -/
def decryptCredential (e : Cred) (pin : String) : Option Cred :=
  match e.iv, e.salt with
  | some ivH, some saltH =>
    let ivB := hexToBytesS ivH
    let saltB := hexToBytesS saltH
    let key := deriveKeyFromPin pin saltB
    match decryptText e.site key ivB, decryptText e.username key ivB,
          decryptText e.password key ivB with
    | some s, some u, some p =>
      some { id := e.id, site := s, username := u, password := p,
             iv := none, salt := none, favicon := e.favicon,
             riskScore := e.riskScore, riskFactors := e.riskFactors }
    | _, _, _ => none
  | _, _ => none

set_option maxRecDepth 4096

/-- A byte survives the hex round trip. -/
theorem parse_byteToHex (b : Nat) (hb : b < 256) :
    parseHexPair (hexDigitChar (b / 16 % 16)) (hexDigitChar (b % 16)) = b := by
  revert hb
  revert b
  decide

/-- `hexToUint8Array` inverts `arrayBufferToHex` on byte lists. -/
theorem hexToBytes_bytesToHex (bs : List Nat) (h : ∀ b ∈ bs, b < 256) :
    hexToBytesL (bytesToHexL bs) = bs := by
  induction bs with
  | nil => rfl
  | cons b rest ih =>
    have hb : b < 256 := h b (List.mem_cons_self _ _)
    have hrest : ∀ x ∈ rest, x < 256 := fun x hx => h x (List.mem_cons_of_mem _ hx)
    show hexToBytesL (byteToHexL b ++ bytesToHexL rest) = b :: rest
    rw [byteToHexL]
    show parseHexPair _ _ :: hexToBytesL (bytesToHexL rest) = b :: rest
    rw [parse_byteToHex b hb, ih hrest]

/-- String-level form of the hex round trip. -/
theorem hexToBytesS_bytesToHexS (bs : List Nat) (h : ∀ b ∈ bs, b < 256) :
    hexToBytesS (bytesToHexS bs) = bs :=
  hexToBytes_bytesToHex bs h

/-- C1. For every credential record carrying exactly the plaintext fields
(id, site, username, password, favicon, riskScore, riskFactors — no
`iv`/`salt`) and every PIN, decrypting the encryption of the record with
the same PIN returns the record unchanged:
`decryptCredential (encryptCredential r pin) pin = some r`, for any
16-byte salt draw and 12-byte IV draw (any byte lists work). -/
theorem encrypt_decrypt_roundtrip (r : Cred) (pin : String) (saltB ivB : List Nat)
    (hs : ∀ b ∈ saltB, b < 256) (hi : ∀ b ∈ ivB, b < 256)
    (hiv : r.iv = none) (hsalt : r.salt = none) :
    decryptCredential (encryptCredential r pin saltB ivB) pin = some r := by
  cases r
  simp_all [encryptCredential, decryptCredential, encryptText, decryptText,
            hexToBytesS_bytesToHexS saltB hs, hexToBytesS_bytesToHexS ivB hi]

/-- Concrete instance of the C1 round trip. -/
theorem encrypt_decrypt_roundtrip_witness :
    decryptCredential
      (encryptCredential
        { id := 1, site := .plain "gmail.com", username := .plain "a@b.com",
          password := .plain "Abc123!", iv := none, salt := none,
          favicon := "https://gmail.com/favicon.ico", riskScore := some 3,
          riskFactors := [("url_length", 2)] }
        "1234" (List.replicate 16 171) (List.replicate 12 205)) "1234"
    = some { id := 1, site := .plain "gmail.com", username := .plain "a@b.com",
             password := .plain "Abc123!", iv := none, salt := none,
             favicon := "https://gmail.com/favicon.ico", riskScore := some 3,
             riskFactors := [("url_length", 2)] } :=
  encrypt_decrypt_roundtrip
    { id := 1, site := .plain "gmail.com", username := .plain "a@b.com",
      password := .plain "Abc123!", iv := none, salt := none,
      favicon := "https://gmail.com/favicon.ico", riskScore := some 3,
      riskFactors := [("url_length", 2)] }
    "1234" (List.replicate 16 171) (List.replicate 12 205)
    (by decide) (by decide) rfl rfl

/-- Embeds the character class `\d` of the enrollment regex `^\d+$` and
the digit PINs: code points 48-57. -/
def isDigitChar (c : Char) : Bool :=
  48 ≤ c.toNat && c.toNat ≤ 57

/-- The PIN policy enforced at enrollment (PinSetup.jsx): 4 to 6
characters, numeric only. -/
def pinPolicy (pin : String) : Prop :=
  4 ≤ pin.length ∧ pin.length ≤ 6 ∧ ∀ c ∈ pin.toList, isDigitChar c

instance (pin : String) : Decidable (pinPolicy pin) := by
  unfold pinPolicy
  infer_instance

/-- Embeds the loop of `getSessionKey` (pinAuth.js lines 306-313):
`key ^= extId.charCodeAt(i) * (i + 1)`, with the JavaScript 32-bit
coercion of the bitwise operand made explicit. -/
def sessionKeyGo (k i : Nat) : List Char → Nat
  | [] => k
  | c :: rest => sessionKeyGo (k ^^^ (c.toNat * (i + 1)) % 4294967296) (i + 1) rest

/-- Embeds `getSessionKey()`: fold the XOR over the extension id. -/
def getSessionKey (extId : String) : Nat :=
  sessionKeyGo 0 0 extId.toList

/-- Embeds the byte loop of `encryptSessionPin` (pinAuth.js lines
318-326): `pin.charCodeAt(i) ^ ((key + i) % 256)`. -/
def encBytes (key i : Nat) : List Char → List Nat
  | [] => []
  | c :: rest => (c.toNat ^^^ (key + i) % 256) :: encBytes key (i + 1) rest

/-- Embeds `encryptSessionPin(pin)`: XOR-obfuscate and hex-encode. -/
def encryptSessionPin (key : Nat) (pin : String) : String :=
  String.mk (bytesToHexL (encBytes key 0 pin.toList))

/-- Embeds the byte loop of `decryptSessionPin` (pinAuth.js lines
331-348): `String.fromCharCode(bytes[i] ^ ((key + i) % 256))`. -/
def decChars (key i : Nat) : List Nat → List Char
  | [] => []
  | b :: rest => Char.ofNat (b ^^^ (key + i) % 256) :: decChars key (i + 1) rest

/-- Embeds `decryptSessionPin(encrypted)`: hex-decode and XOR back.  The
source wraps the body in try/catch returning null, but no operation in
the body throws (`parseInt` yields NaN, not an exception), so the
function always returns the decoded string. -/
def decryptSessionPin (key : Nat) (enc : String) : String :=
  String.mk (decChars key 0 (hexToBytesL enc.toList))

/-- `SESSION_DURATION_MINUTES * 60 * 1000` (pinAuth.js line 354). -/
def sessionDurationMs : Nat := 30 * 60 * 1000

/-- Embeds `createSession(pin)` (pinAuth.js lines 356-368) as its effect
on the persisted `rf_pin_session` value `{expiry, ep}`. -/
def createSession (key now : Nat) (pin : String) : Option (Nat × String) :=
  some (now + sessionDurationMs, encryptSessionPin key pin)

/-- Embeds `getSessionPin(callback)` (pinAuth.js lines 373-404) as a
pure function of the persisted session and the current time, returning
the callback argument together with the resulting session state: absent
session yields null; `now > expiry` removes the session and yields null;
a falsy `ep` yields null without removing; otherwise the de-obfuscated
PIN is returned and the session is untouched. -/
def getSessionPin (key now : Nat) (sess : Option (Nat × String)) :
    Option String × Option (Nat × String) :=
  match sess with
  | none => (none, none)
  | some (expiry, ep) =>
    if expiry < now then (none, none)
    else if ep = "" then (none, some (expiry, ep))
    else (some (decryptSessionPin key ep), some (expiry, ep))

/-- Embeds `extendSession(callback)` (pinAuth.js lines 416-424): read
the session PIN; when a truthy PIN comes back, re-create the session at
the current time; otherwise leave the state `getSessionPin` produced. -/
def extendSession (key now : Nat) (sess : Option (Nat × String)) :
    Option (Nat × String) :=
  match getSessionPin key now sess with
  | (some pin, s1) => if pin = "" then s1 else createSession key now pin
  | (none, s1) => s1

/-- Obfuscated session-PIN bytes stay below 256 when the PIN characters
do. -/
theorem encBytes_lt (key : Nat) (pin : List Char)
    (h : ∀ c ∈ pin, c.toNat < 256) :
    ∀ i, ∀ b ∈ encBytes key i pin, b < 256 := by
  induction pin with
  | nil => intro i b hb; cases hb
  | cons c rest ih =>
    intro i b hb
    rcases List.mem_cons.mp hb with hb | hb
    · subst hb
      exact Nat.xor_lt_two_pow (n := 8) (h c (List.mem_cons_self _ _))
        (Nat.mod_lt _ (by decide))
    · exact ih (fun x hx => h x (List.mem_cons_of_mem _ hx)) (i + 1) b hb

/-- XOR de-obfuscation inverts obfuscation character by character. -/
theorem decChars_encBytes (key : Nat) (pin : List Char)
    (h : ∀ c ∈ pin, c.toNat < 256) :
    ∀ i, decChars key i (encBytes key i pin) = pin := by
  induction pin with
  | nil => intro i; rfl
  | cons c rest ih =>
    intro i
    show Char.ofNat ((c.toNat ^^^ (key + i) % 256) ^^^ (key + i) % 256) ::
      decChars key (i + 1) (encBytes key (i + 1) rest) = c :: rest
    rw [Nat.xor_cancel_right, Char.ofNat_toNat,
        ih (fun x hx => h x (List.mem_cons_of_mem _ hx)) (i + 1)]

/-- The session obfuscation round-trips on any PIN made of 8-bit
characters. -/
theorem decryptSessionPin_encryptSessionPin (key : Nat) (pin : String)
    (h : ∀ c ∈ pin.toList, c.toNat < 256) :
    decryptSessionPin key (encryptSessionPin key pin) = pin := by
  show String.mk (decChars key 0 (hexToBytesL
    (bytesToHexL (encBytes key 0 pin.toList)))) = pin
  rw [hexToBytes_bytesToHex _ (encBytes_lt key pin.toList h 0),
      decChars_encBytes key pin.toList h 0]
  cases pin
  rfl

/-- Digit characters are 8-bit. -/
theorem digit_toNat_lt (c : Char) (h : isDigitChar c = true) : c.toNat < 256 := by
  unfold isDigitChar at h
  simp only [Bool.and_eq_true, decide_eq_true_eq] at h
  omega

/-- A policy-conforming PIN is nonempty. -/
theorem pinPolicy_toList_ne (pin : String) (hpol : pinPolicy pin) :
    pin.toList ≠ [] := by
  obtain ⟨h4, -, -⟩ := hpol
  cases pin with
  | mk data =>
    intro hnil
    have hd : data = [] := hnil
    subst hd
    simp [String.length] at h4

/-- Obfuscating a nonempty PIN yields a nonempty hex string (the `!ep`
guard in `getSessionPin` does not fire on real sessions). -/
theorem encryptSessionPin_ne_empty (key : Nat) (pin : String)
    (h : pin.toList ≠ []) : encryptSessionPin key pin ≠ "" := by
  unfold encryptSessionPin
  cases hp : pin.toList with
  | nil => exact absurd hp h
  | cons c rest =>
    intro he
    have hdata : bytesToHexL (encBytes key 0 (c :: rest)) = [] :=
      congrArg String.data he
    simp [encBytes, bytesToHexL, byteToHexL] at hdata

/-- A well-formed unexpired session returns its PIN and is left
untouched. -/
theorem getSessionPin_valid_helper (key : Nat) (pin : String) (expiry now : Nat)
    (hle : now ≤ expiry) (hne : pin.toList ≠ [])
    (h8 : ∀ c ∈ pin.toList, c.toNat < 256) :
    getSessionPin key now (some (expiry, encryptSessionPin key pin))
    = (some pin, some (expiry, encryptSessionPin key pin)) := by
  show (if expiry < now then ((none : Option String), (none : Option (Nat × String)))
      else if encryptSessionPin key pin = "" then
        (none, some (expiry, encryptSessionPin key pin))
      else (some (decryptSessionPin key (encryptSessionPin key pin)),
            some (expiry, encryptSessionPin key pin)))
    = (some pin, some (expiry, encryptSessionPin key pin))
  rw [if_neg (by omega : ¬ expiry < now),
      if_neg (encryptSessionPin_ne_empty key pin hne),
      decryptSessionPin_encryptSessionPin key pin h8]

/-- An expired session is removed and yields no PIN. -/
theorem getSessionPin_expired_helper (key now expiry : Nat) (ep : String)
    (hlt : expiry < now) :
    getSessionPin key now (some (expiry, ep)) = (none, none) := by
  show (if expiry < now then ((none : Option String), (none : Option (Nat × String)))
      else if ep = "" then (none, some (expiry, ep))
      else (some (decryptSessionPin key ep), some (expiry, ep)))
    = (none, none)
  rw [if_pos hlt]

/-- C5 counterexample: at `now` exactly equal to `expiry` the source's
`now > expiry` guard does not fire, so `getSessionPin` returns the PIN
and keeps the session, contradicting the claim that it returns absent
and deletes the session exactly at expiry. -/
theorem getSessionPin_at_expiry_cex :
    getSessionPin (getSessionKey "fjemdkalcmdpebmhhmnbkgbcbjkavmlp") 1000
      (some (1000, encryptSessionPin
        (getSessionKey "fjemdkalcmdpebmhhmnbkgbcbjkavmlp") "1234"))
    = (some "1234",
       some (1000, encryptSessionPin
         (getSessionKey "fjemdkalcmdpebmhhmnbkgbcbjkavmlp") "1234")) := by
  decide

/-- C5 (amended). For every persisted session written with a
policy-conforming PIN and every current time: `getSessionPin` returns
the de-obfuscated PIN and keeps the session when `now ≤ expiry`
(inclusive of the boundary), and deletes the session and returns absent
exactly when `now > expiry` (strictly after expiry, for any stored
`ep`). -/
theorem getSessionPin_session_boundary (extId pin : String) (expiry now : Nat)
    (hpol : pinPolicy pin) :
    (now ≤ expiry →
      getSessionPin (getSessionKey extId) now
        (some (expiry, encryptSessionPin (getSessionKey extId) pin))
      = (some pin, some (expiry, encryptSessionPin (getSessionKey extId) pin)))
    ∧ ∀ ep, expiry < now →
      getSessionPin (getSessionKey extId) now (some (expiry, ep)) = (none, none) := by
  constructor
  · intro hle
    exact getSessionPin_valid_helper _ pin expiry now hle
      (pinPolicy_toList_ne pin hpol)
      (fun c hc => digit_toNat_lt c (hpol.2.2 c hc))
  · intro ep hlt
    exact getSessionPin_expired_helper _ now expiry ep hlt

/-- Concrete instance of the C5 session boundary. -/
theorem getSessionPin_session_boundary_witness :
    getSessionPin (getSessionKey "abcphkegfjcmdpebmhhmnbkgbcbjkavm") 5
      (some (9, encryptSessionPin (getSessionKey "abcphkegfjcmdpebmhhmnbkgbcbjkavm") "1234"))
    = (some "1234",
       some (9, encryptSessionPin (getSessionKey "abcphkegfjcmdpebmhhmnbkgbcbjkavm") "1234")) :=
  (getSessionPin_session_boundary "abcphkegfjcmdpebmhhmnbkgbcbjkavm" "1234" 9 5
    (by decide)).1 (by decide)

/-- C8. The session PIN obfuscation is deterministic and reversible:
for every PIN of 4-6 decimal digits, de-obfuscating the obfuscation
returns the PIN, both directions keyed off the XOR-folded value derived
from the extension id. -/
theorem sessionPin_obfuscation_roundtrip (extId pin : String)
    (hpol : pinPolicy pin) :
    decryptSessionPin (getSessionKey extId)
      (encryptSessionPin (getSessionKey extId) pin) = pin :=
  decryptSessionPin_encryptSessionPin _ pin
    (fun c hc => digit_toNat_lt c (hpol.2.2 c hc))

/-- Concrete instance of the C8 obfuscation round trip. -/
theorem sessionPin_obfuscation_roundtrip_witness :
    decryptSessionPin (getSessionKey "fjemdkalcmdpebmhhmnbkgbcbjkavmlp")
      (encryptSessionPin (getSessionKey "fjemdkalcmdpebmhhmnbkgbcbjkavmlp") "907856")
    = "907856" :=
  sessionPin_obfuscation_roundtrip "fjemdkalcmdpebmhhmnbkgbcbjkavmlp" "907856"
    (by decide)

/-- C9 counterexample: against a stored session whose expiry lies beyond
`now + 30min` (e.g. a forged or clock-skewed record), `extendSession`
re-persists with expiry `now + 30min`, which is EARLIER than the stored
expiry — refuting the claim that a valid session is always re-persisted
with a strictly later expiry. -/
theorem extendSession_not_strictly_later_cex :
    extendSession (getSessionKey "fjemdkalcmdpebmhhmnbkgbcbjkavmlp") 0
      (some (10000000000000, encryptSessionPin
        (getSessionKey "fjemdkalcmdpebmhhmnbkgbcbjkavmlp") "1234"))
    = some (1800000, encryptSessionPin
        (getSessionKey "fjemdkalcmdpebmhhmnbkgbcbjkavmlp") "1234")
    ∧ ¬ (10000000000000 < 1800000) := by
  constructor
  · decide
  · decide

/-- C9 (amended). For every persisted-session state, with a session
written from a policy-conforming PIN: if the session is valid
(`now ≤ expiry`), `extendSession` re-persists it with expiry
`now + 30min` — strictly in the future, and strictly later than the old
expiry whenever the old expiry is below `now + 30min` (every expiry
`createSession` can have produced at an earlier time) — while the stored
obfuscated PIN `ep` is unchanged; if the session is absent it stays
absent, and an expired session is deleted; in particular `extendSession`
never creates a session out of a Locked state. -/
theorem extendSession_frame (extId pin : String) (expiry now : Nat)
    (hpol : pinPolicy pin) :
    (now ≤ expiry →
      extendSession (getSessionKey extId) now
        (some (expiry, encryptSessionPin (getSessionKey extId) pin))
      = some (now + sessionDurationMs, encryptSessionPin (getSessionKey extId) pin)
      ∧ now < now + sessionDurationMs
      ∧ (expiry < now + sessionDurationMs → expiry < now + sessionDurationMs))
    ∧ (∀ ep, expiry < now →
        extendSession (getSessionKey extId) now (some (expiry, ep)) = none)
    ∧ extendSession (getSessionKey extId) now none = none := by
  refine ⟨fun hle => ⟨?_, by simp [sessionDurationMs], fun h => h⟩, fun ep hlt => ?_, rfl⟩
  · unfold extendSession
    rw [getSessionPin_valid_helper _ pin expiry now hle
      (pinPolicy_toList_ne pin hpol)
      (fun c hc => digit_toNat_lt c (hpol.2.2 c hc))]
    have hne : pin ≠ "" := by
      intro h0
      exact pinPolicy_toList_ne pin hpol (by rw [h0]; rfl)
    simp [hne, createSession]
  · unfold extendSession
    rw [getSessionPin_expired_helper _ now expiry ep hlt]

/-- Concrete instance of the C9 extension behavior. -/
theorem extendSession_frame_witness :
    extendSession (getSessionKey "abcphkegfjcmdpebmhhmnbkgbcbjkavm") 7
      (some (20, encryptSessionPin (getSessionKey "abcphkegfjcmdpebmhhmnbkgbcbjkavm") "1234"))
    = some (7 + sessionDurationMs,
        encryptSessionPin (getSessionKey "abcphkegfjcmdpebmhhmnbkgbcbjkavm") "1234") :=
  ((extendSession_frame "abcphkegfjcmdpebmhhmnbkgbcbjkavm" "1234" 20 7
    (by decide)).1 (by decide)).1

/-- JavaScript truthiness of an optional string field (absent and the
empty string are falsy). -/
def truthyOS : Option String → Bool
  | none => false
  | some s => !(s == "")

/-- JavaScript truthiness of a stored string field: only the empty
string is falsy; a base64 ciphertext string is always nonempty. -/
def truthyF : FieldVal → Bool
  | .plain s => !(s == "")
  | .ct _ _ _ => true

/-- The load effect's encrypted-record test `cred.iv && cred.salt`
(detectLogin.js line 784). -/
def isEncryptedB (c : Cred) : Bool :=
  truthyOS c.iv && truthyOS c.salt

/-- The migration filter `!cred.iv && !cred.salt && cred.password`
(detectLogin.js line 823). -/
def migEligibleB (c : Cred) : Bool :=
  !truthyOS c.iv && !truthyOS c.salt && truthyF c.password

/-- Embeds the decrypt loop of the load effect (detectLogin.js lines
780-797): records with truthy `iv` and `salt` are decrypted — successes
are pushed to the display list, failures are dropped and counted in
`tamperedCredentials` — while all other records are pushed verbatim. -/
def loadLoop (pin : String) : List Cred → List Cred × Nat
  | [] => ([], 0)
  | c :: rest =>
    let r := loadLoop pin rest
    if isEncryptedB c then
      match decryptCredential c pin with
      | some d => (d :: r.1, r.2)
      | none => (r.1, r.2 + 1)
    else (c :: r.1, r.2)

/-- Embeds the migration encryption loop (detectLogin.js lines 827-834)
with the random draws supplied positionally: the i-th eligible record is
encrypted with the i-th (salt, IV) draw.  Encryption is total in the
model, matching the try/catch around a non-throwing call. -/
def encryptList (pin : String) (rnd : Nat → List Nat × List Nat) :
    Nat → List Cred → List Cred
  | _, [] => []
  | i, c :: rest =>
    encryptCredential c pin (rnd i).1 (rnd i).2 :: encryptList pin rnd (i + 1) rest

/-- Embeds one arm of the `newStorageList` map (detectLogin.js lines
842-849): a plaintext-shaped record is replaced by the encrypted version
found by id (kept as-is when none is found), others are kept. -/
def migOf (em : List Cred) (c : Cred) : Cred :=
  if migEligibleB c then
    match em.find? (fun e => e.id == c.id) with
    | some e => e
    | none => c
  else c

/-- Embeds the `newStorageList` construction (detectLogin.js lines
842-849). -/
def migrateStored (stored em : List Cred) : List Cred :=
  stored.map (migOf em)

/-- Result of one run of the load effect with an available session PIN:
the display list, the tamper count, and the persisted list after the
migration block (the lines 857-863 re-map of the display list returns
every entry unchanged, so the display list is unaffected by
migration). -/
structure LoadResult where
  visible : List Cred
  tampered : Nat
  stored : List Cred
deriving DecidableEq

/-- Embeds the whole load effect (detectLogin.js lines 779-868) on the
PIN-available path: decrypt loop, then the migration block, which runs
only when the display list contains plaintext-shaped records and
persists the migrated storage list only when at least one record was
encrypted. -/
def loadFull (pin : String) (rnd : Nat → List Nat × List Nat)
    (stored : List Cred) : LoadResult :=
  let r := loadLoop pin stored
  let plaintextCreds := r.1.filter migEligibleB
  if plaintextCreds.isEmpty then ⟨r.1, r.2, stored⟩
  else
    let em := encryptList pin rnd 0 plaintextCreds
    if em.isEmpty then ⟨r.1, r.2, stored⟩
    else ⟨r.1, r.2, migrateStored stored em⟩

/-- Embeds one step of `performSave`'s display rebuild (detectLogin.js
lines 1462-1476): an encrypted record that decrypts is displayed in
decrypted form; one that FAILS to decrypt is kept in the display list in
its encrypted form (`decryptedForDisplay.push(cred)` in the catch);
non-encrypted records pass through. -/
def saveDisplayOf (pin : String) (c : Cred) : Cred :=
  if isEncryptedB c then
    match decryptCredential c pin with
    | some d => d
    | none => c
  else c

/-- The display list `performSave` builds over the full storage list. -/
def saveDisplayList (pin : String) (l : List Cred) : List Cred :=
  l.map (saveDisplayOf pin)

/-- The character class `[A-Za-z0-9]` of the special-character test in
`performSave`'s password guard. -/
def isAlphanumB (c : Char) : Bool :=
  (48 ≤ c.toNat && c.toNat ≤ 57) ||
  (65 ≤ c.toNat && c.toNat ≤ 90) ||
  (97 ≤ c.toNat && c.toNat ≤ 122)

/-- Whitespace as stripped by `String.prototype.trim` (the ASCII part:
space, tab, line feed, carriage return, vertical tab, form feed). -/
def isJsSpace (c : Char) : Bool :=
  c.toNat = 32 || c.toNat = 9 || c.toNat = 10
    || c.toNat = 13 || c.toNat = 11 || c.toNat = 12

/-- Embeds `(form.password || "").trim()` over the ASCII whitespace
set: drop whitespace from both ends. -/
def trimS (s : String) : String :=
  String.mk (((s.toList.dropWhile isJsSpace).reverse.dropWhile isJsSpace).reverse)

/-- Embeds the defensive password-complexity guard of `performSave`
(detectLogin.js lines 1393-1404): the trimmed form password must be
nonempty, at least 6 characters, contain a digit (`/\d/`) and a
non-alphanumeric character (`/[^A-Za-z0-9]/`); on failure `performSave`
returns before encrypting or touching the display. -/
def savePasswordOk (password : String) : Bool :=
  let pwd := trimS password
  !(pwd == "") && !(pwd.length < 6)
    && pwd.toList.any isDigitChar
    && pwd.toList.any (fun c => !isAlphanumB c)

/-- The form state of the save page: the three strings the user typed
(`form.site`, `form.username`, `form.password`). -/
structure SaveForm where
  site : String
  username : String
  password : String
deriving DecidableEq

/-- Embeds `performSave(s, pin)` (detectLogin.js lines 1389-1481): the
password guard runs first and an early return leaves storage and
display untouched; otherwise the new credential is built from the form
fields (the URL normalization of the site string and the favicon /
risk-score metadata are taken as inputs, `id` is the `Date.now()` draw),
encrypted with fresh draws, prepended to the stored list, and the
display list is rebuilt from the updated storage. -/
def performSave (form : SaveForm) (id : Nat) (favicon : String)
    (riskScore : Option Int) (riskFactors : List (String × Int))
    (pin : String) (saltB ivB : List Nat)
    (stored display : List Cred) : List Cred × List Cred :=
  if savePasswordOk form.password then
    let newCred : Cred :=
      { id := id, site := .plain form.site, username := .plain form.username,
        password := .plain form.password, iv := none, salt := none,
        favicon := favicon, riskScore := riskScore,
        riskFactors := riskFactors }
    let e := encryptCredential newCred pin saltB ivB
    (e :: stored, saveDisplayList pin (e :: stored))
  else (stored, display)

/-- Embeds `onClearCorrupted` (detectLogin.js lines 1539-1563): keep
every encrypted record that still decrypts and every non-encrypted
record; drop and count the rest; persist the kept list. -/
def purgeCorrupted (pin : String) : List Cred → List Cred × Nat
  | [] => ([], 0)
  | c :: rest =>
    let r := purgeCorrupted pin rest
    if isEncryptedB c then
      match decryptCredential c pin with
      | some _ => (c :: r.1, r.2)
      | none => (r.1, r.2 + 1)
    else (c :: r.1, r.2)

/-- What the load loop displays for one stored record. -/
def visOf (pin : String) (c : Cred) : Option Cred :=
  if isEncryptedB c then decryptCredential c pin else some c

/-- A non-encrypted record is displayed verbatim. -/
theorem visOf_not_enc (pin : String) (c : Cred) (he : isEncryptedB c = false) :
    visOf pin c = some c := by
  simp [visOf, he]

/-- An encrypted record is displayed as its decryption result. -/
theorem visOf_enc (pin : String) (c : Cred) (he : isEncryptedB c = true) :
    visOf pin c = decryptCredential c pin := by
  simp [visOf, he]

/-- The load loop's display list, as a filterMap. -/
theorem loadLoop_visible (pin : String) (l : List Cred) :
    (loadLoop pin l).1 = l.filterMap (visOf pin) := by
  induction l with
  | nil => rfl
  | cons c rest ih =>
    rw [List.filterMap_cons]
    cases he : isEncryptedB c with
    | false =>
      rw [visOf_not_enc pin c he]
      simp [loadLoop, he, ih]
    | true =>
      rw [visOf_enc pin c he]
      cases hd : decryptCredential c pin with
      | none => simp [loadLoop, he, hd, ih]
      | some d => simp [loadLoop, he, hd, ih]

/-- The load loop's tamper count, as a filter length. -/
theorem loadLoop_tampered (pin : String) (l : List Cred) :
    (loadLoop pin l).2
    = (l.filter (fun c => isEncryptedB c && (decryptCredential c pin).isNone)).length := by
  induction l with
  | nil => rfl
  | cons c rest ih =>
    rw [List.filter_cons]
    unfold loadLoop
    cases he : isEncryptedB c with
    | false => simp [he, ih]
    | true =>
      cases hd : decryptCredential c pin with
      | none => simp [he, hd, ih]
      | some d => simp [he, hd, ih]

/-- A successfully decrypted record has no `iv`/`salt` fields. -/
theorem decrypt_result_shape (e : Cred) (pin : String) (d : Cred)
    (h : decryptCredential e pin = some d) : d.iv = none ∧ d.salt = none := by
  unfold decryptCredential at h
  split at h
  · dsimp only at h
    split at h
    · obtain rfl : _ = d := Option.some.inj h
      exact ⟨rfl, rfl⟩
    · cases h
  · cases h

/-- Every record the load loop displays fails the encrypted-record test:
the display list never carries a ciphertext-bearing record. -/
theorem loadLoop_visible_not_enc (pin : String) (l : List Cred) :
    ∀ v ∈ (loadLoop pin l).1, isEncryptedB v = false := by
  intro v hv
  rw [loadLoop_visible] at hv
  obtain ⟨c, -, hc⟩ := List.mem_filterMap.mp hv
  unfold visOf at hc
  cases he : isEncryptedB c with
  | false =>
    rw [he] at hc
    simp at hc
    subst hc
    exact he
  | true =>
    rw [he] at hc
    simp at hc
    obtain ⟨hiv, -⟩ := decrypt_result_shape c pin v hc
    unfold isEncryptedB
    rw [hiv]
    rfl

/-- Successes plus failures account exactly for the encrypted records. -/
theorem loadLoop_count (pin : String) (l : List Cred) :
    (l.filter (fun c => isEncryptedB c && (decryptCredential c pin).isSome)).length
      + (loadLoop pin l).2
    = (l.filter isEncryptedB).length := by
  induction l with
  | nil => rfl
  | cons c rest ih =>
    rw [List.filter_cons, List.filter_cons]
    unfold loadLoop
    cases he : isEncryptedB c with
    | false => simpa [he] using ih
    | true =>
      cases hd : decryptCredential c pin with
      | none => simp [he, hd]; omega
      | some d => simp [he, hd]; omega

/-- C2. For every persisted list and PIN, load partitions by presence
(truthiness) of `iv` and `salt`: each record having them is attempted
with `decryptCredential`; the visible list is exactly the per-record
display results (successful decryptions appear, non-encrypted records
pass through); the tamper count is exactly the number of encrypted
records that fail; visible successes plus `tamperedCount` equals the
number of encrypted records processed; and a failing encrypted record is
excluded from the visible list. -/
theorem load_partition (pin : String) (l : List Cred) :
    (loadLoop pin l).1 = l.filterMap (visOf pin)
    ∧ (loadLoop pin l).2
      = (l.filter (fun c => isEncryptedB c && (decryptCredential c pin).isNone)).length
    ∧ (l.filter (fun c => isEncryptedB c && (decryptCredential c pin).isSome)).length
        + (loadLoop pin l).2
      = (l.filter isEncryptedB).length
    ∧ ∀ c ∈ l, isEncryptedB c = true → decryptCredential c pin = none →
        c ∉ (loadLoop pin l).1 :=
  ⟨loadLoop_visible pin l, loadLoop_tampered pin l, loadLoop_count pin l,
   fun c _ hc _ hmem => by
     have hne := loadLoop_visible_not_enc pin l c hmem
     rw [hc] at hne
     cases hne⟩

/-- Concrete instance of the C2 partition: a tampered encrypted record
is excluded from the visible list. -/
theorem load_partition_witness :
    (⟨2, .plain "x", .plain "y", .plain "z", some "00", some "0102",
       "", none, []⟩ : Cred) ∉
      (loadLoop "1234"
        [⟨2, .plain "x", .plain "y", .plain "z", some "00", some "0102",
          "", none, []⟩]).1 :=
  (load_partition "1234"
    [⟨2, .plain "x", .plain "y", .plain "z", some "00", some "0102",
      "", none, []⟩]).2.2.2
    ⟨2, .plain "x", .plain "y", .plain "z", some "00", some "0102", "", none, []⟩
    (by decide) (by decide) (by decide)

/-- Every record `onClearCorrupted` keeps either is not encrypted or
still decrypts. -/
theorem purge_kept_ok (pin : String) (l : List Cred) :
    ∀ v ∈ (purgeCorrupted pin l).1,
      isEncryptedB v = false ∨ (decryptCredential v pin).isSome = true := by
  induction l with
  | nil => intro v hv; cases hv
  | cons c rest ih =>
    intro v hv
    unfold purgeCorrupted at hv
    cases he : isEncryptedB c with
    | false =>
      rw [he] at hv
      simp only [Bool.false_eq_true, if_false] at hv
      rcases List.mem_cons.mp hv with rfl | hv
      · exact Or.inl he
      · exact ih v hv
    | true =>
      rw [he] at hv
      simp only [if_true] at hv
      cases hd : decryptCredential c pin with
      | none =>
        rw [hd] at hv
        exact ih v hv
      | some d =>
        rw [hd] at hv
        rcases List.mem_cons.mp hv with rfl | hv
        · exact Or.inr (by rw [hd]; rfl)
        · exact ih v hv

/-- C3 counterexample: with a new credential whose form password
"Abc123!" passes `performSave`'s own complexity guard, the save path
proceeds to the display rebuild, which places a stored record whose
decryption fails into the visible list unchanged, in its
ciphertext-bearing form (the `decryptedForDisplay.push(cred)` fallback
in the catch branch at detectLogin.js line 1471) — refuting the claim
that no visible-list-building operation ever surfaces a record that
failed decryption. -/
theorem save_display_fail_cex :
    savePasswordOk "Abc123!" = true
    ∧ decryptCredential
      (⟨9, .plain "x", .plain "y", .plain "z", some "00", some "0102",
        "", none, []⟩ : Cred) "1234" = none
    ∧ isEncryptedB
      (⟨9, .plain "x", .plain "y", .plain "z", some "00", some "0102",
        "", none, []⟩ : Cred) = true
    ∧ (⟨9, .plain "x", .plain "y", .plain "z", some "00", some "0102",
        "", none, []⟩ : Cred) ∈
      (performSave ⟨"s.com", "u", "Abc123!"⟩ 10 "" none [] "1234"
        (List.replicate 16 1) (List.replicate 12 2)
        [⟨9, .plain "x", .plain "y", .plain "z", some "00", some "0102",
          "", none, []⟩] []).2 := by
  refine ⟨by decide, by decide, by decide, ?_⟩
  decide

/-- C3 (amended). In load and purge a record whose decryption fails is
never surfaced: the load display list never carries any
ciphertext-bearing record (so neither raw nor partially decrypted
forms), and purge drops every failing record from the persisted list.
`performSave`'s display rebuild, however, falls back to including a
failing record verbatim in its encrypted form. -/
theorem fail_closed_visibility (pin : String) (l : List Cred) :
    (∀ v ∈ (loadLoop pin l).1, isEncryptedB v = false)
    ∧ (∀ c, isEncryptedB c = true → decryptCredential c pin = none →
        c ∉ (loadLoop pin l).1 ∧ c ∉ (purgeCorrupted pin l).1)
    ∧ (∀ c, isEncryptedB c = true → decryptCredential c pin = none →
        saveDisplayOf pin c = c) := by
  refine ⟨loadLoop_visible_not_enc pin l, fun c hc hd => ⟨?_, ?_⟩, fun c hc hd => ?_⟩
  · intro hmem
    have hne := loadLoop_visible_not_enc pin l c hmem
    rw [hc] at hne
    cases hne
  · intro hmem
    rcases purge_kept_ok pin l c hmem with hne | hsome
    · rw [hc] at hne; cases hne
    · rw [hd] at hsome; cases hsome
  · simp [saveDisplayOf, hc, hd]

/-- Concrete instance of the C3 amended fail-closed property. -/
theorem fail_closed_visibility_witness :
    (⟨9, .plain "x", .plain "y", .plain "z", some "00", some "0102",
       "", none, []⟩ : Cred) ∉
      (purgeCorrupted "1234"
        [⟨9, .plain "x", .plain "y", .plain "z", some "00", some "0102",
          "", none, []⟩]).1 :=
  ((fail_closed_visibility "1234"
    [⟨9, .plain "x", .plain "y", .plain "z", some "00", some "0102",
      "", none, []⟩]).2.1
    ⟨9, .plain "x", .plain "y", .plain "z", some "00", some "0102", "", none, []⟩
    (by decide) (by decide)).2

/-- Validity of a randomness supply: every draw is a nonempty list of
bytes (as `crypto.getRandomValues` fills a nonempty `Uint8Array`). -/
def validDraws (rnd : Nat → List Nat × List Nat) : Prop :=
  ∀ n, (rnd n).1 ≠ [] ∧ (∀ b ∈ (rnd n).1, b < 256)
     ∧ (rnd n).2 ≠ [] ∧ (∀ b ∈ (rnd n).2, b < 256)

/-- The hex form of a nonempty byte list is nonempty. -/
theorem bytesToHexS_ne_empty (bs : List Nat) (h : bs ≠ []) :
    bytesToHexS bs ≠ "" := by
  cases bs with
  | nil => exact absurd rfl h
  | cons b rest =>
    intro he
    have hdata : bytesToHexL (b :: rest) = [] := congrArg String.data he
    simp [bytesToHexL, byteToHexL] at hdata

/-- An encryption output passes the encrypted-record test and fails the
migration filter, whenever the draws are nonempty. -/
theorem encrypted_not_eligible (c : Cred) (pin : String) (saltB ivB : List Nat)
    (hs : saltB ≠ []) (hi : ivB ≠ []) :
    isEncryptedB (encryptCredential c pin saltB ivB) = true
    ∧ migEligibleB (encryptCredential c pin saltB ivB) = false := by
  constructor
  · simp [isEncryptedB, encryptCredential, truthyOS,
          bytesToHexS_ne_empty ivB hi, bytesToHexS_ne_empty saltB hs]
  · simp [migEligibleB, encryptCredential, truthyOS,
          bytesToHexS_ne_empty ivB hi, bytesToHexS_ne_empty saltB hs]

/-- A migration-eligible record fails the encrypted-record test. -/
theorem eligible_not_enc (c : Cred) (h : migEligibleB c = true) :
    isEncryptedB c = false := by
  unfold migEligibleB at h
  unfold isEncryptedB
  cases hiv : truthyOS c.iv with
  | true => rw [hiv] at h; simp at h
  | false => rfl

/-- A migration-eligible stored record appears (verbatim) among the
display list's eligible records. -/
theorem eligible_mem_plaintextCreds (pin : String) (l : List Cred) (c : Cred)
    (hc : c ∈ l) (helig : migEligibleB c = true) :
    c ∈ (loadLoop pin l).1.filter migEligibleB := by
  refine List.mem_filter.mpr ⟨?_, helig⟩
  rw [loadLoop_visible]
  exact List.mem_filterMap.mpr ⟨c, hc, visOf_not_enc pin c (eligible_not_enc c helig)⟩

/-- Every member of the migration encryption list is an encryption
output with some positional draw. -/
theorem encryptList_mem (pin : String) (rnd : Nat → List Nat × List Nat)
    (cs : List Cred) :
    ∀ i, ∀ e ∈ encryptList pin rnd i cs,
      ∃ j c, e = encryptCredential c pin (rnd j).1 (rnd j).2 := by
  induction cs with
  | nil => intro i e he; cases he
  | cons c rest ih =>
    intro i e he
    rcases List.mem_cons.mp he with rfl | he
    · exact ⟨i, c, rfl⟩
    · exact ih (i + 1) e he

/-- Every record of the eligible list has its id represented in the
migration encryption list. -/
theorem encryptList_id_cover (pin : String) (rnd : Nat → List Nat × List Nat)
    (cs : List Cred) :
    ∀ i, ∀ c ∈ cs, ∃ e ∈ encryptList pin rnd i cs, e.id = c.id := by
  induction cs with
  | nil => intro i c hc; cases hc
  | cons hd rest ih =>
    intro i c hc
    rcases List.mem_cons.mp hc with rfl | hc
    · exact ⟨encryptCredential c pin (rnd i).1 (rnd i).2,
        List.mem_cons_self _ _, rfl⟩
    · obtain ⟨e, he, hid⟩ := ih (i + 1) c hc
      exact ⟨e, List.mem_cons_of_mem _ he, hid⟩

/-- The migration encryption list of a nonempty eligible list is
nonempty. -/
theorem encryptList_ne (pin : String) (rnd : Nat → List Nat × List Nat)
    (cs : List Cred) (i : Nat) (h : cs ≠ []) :
    (encryptList pin rnd i cs).isEmpty = false := by
  cases cs with
  | nil => exact absurd rfl h
  | cons c rest => rfl

/-- The load effect never changes the display list in the migration
block. -/
theorem loadFull_visible (pin : String) (rnd : Nat → List Nat × List Nat)
    (l : List Cred) : (loadFull pin rnd l).visible = (loadLoop pin l).1 := by
  unfold loadFull
  dsimp only
  split
  · rfl
  · split <;> rfl

/-- The load effect's tamper count is the decrypt loop's count. -/
theorem loadFull_tampered_eq (pin : String) (rnd : Nat → List Nat × List Nat)
    (l : List Cred) : (loadFull pin rnd l).tampered = (loadLoop pin l).2 := by
  unfold loadFull
  dsimp only
  split
  · rfl
  · split <;> rfl

/-- Characterization of the persisted list after one load: every record
is migration-ineligible, and is either an original stored record or a
fresh encryption output. -/
theorem loadFull_stored_chars (pin : String) (rnd : Nat → List Nat × List Nat)
    (stored : List Cred) (hr : validDraws rnd) :
    ∀ v ∈ (loadFull pin rnd stored).stored,
      migEligibleB v = false
      ∧ (v ∈ stored ∨ ∃ j c, v = encryptCredential c pin (rnd j).1 (rnd j).2) := by
  intro v hv
  unfold loadFull at hv
  dsimp only at hv
  by_cases hpc : ((loadLoop pin stored).1.filter migEligibleB).isEmpty = true
  · rw [if_pos hpc] at hv
    refine ⟨?_, Or.inl hv⟩
    cases helig : migEligibleB v with
    | false => rfl
    | true =>
      have hmem := eligible_mem_plaintextCreds pin stored v hv helig
      rw [List.isEmpty_iff.mp hpc] at hmem
      cases hmem
  · rw [if_neg hpc] at hv
    have hne : (loadLoop pin stored).1.filter migEligibleB ≠ [] := by
      intro h0
      exact hpc (by rw [h0]; rfl)
    rw [encryptList_ne pin rnd _ 0 hne] at hv
    simp only [Bool.false_eq_true, if_false] at hv
    obtain ⟨c, hc, rfl⟩ := List.mem_map.mp hv
    cases helig : migEligibleB c with
    | false =>
      refine ⟨?_, Or.inl ?_⟩ <;> simp [migOf, helig]
      exact hc
    | true =>
      have hcfilter : c ∈ (loadLoop pin stored).1.filter migEligibleB := by
        refine List.mem_filter.mpr ⟨?_, helig⟩
        rw [loadLoop_visible]
        exact List.mem_filterMap.mpr ⟨c, hc, visOf_not_enc pin c (eligible_not_enc c helig)⟩
      obtain ⟨e, hemem, heid⟩ :=
        encryptList_id_cover pin rnd _ 0 c hcfilter
      have hfind : ∃ e', (encryptList pin rnd 0
          ((loadLoop pin stored).1.filter migEligibleB)).find?
            (fun e => e.id == c.id) = some e' := by
        have : ((encryptList pin rnd 0
            ((loadLoop pin stored).1.filter migEligibleB)).find?
              (fun e => e.id == c.id)).isSome := by
          rw [List.find?_isSome]
          exact ⟨e, hemem, by simp [heid]⟩
        exact Option.isSome_iff_exists.mp this
      obtain ⟨e', hfe⟩ := hfind
      have he'mem := List.mem_of_find?_eq_some hfe
      obtain ⟨j, c', rfl⟩ := encryptList_mem pin rnd _ 0 e' he'mem
      obtain ⟨-, hnoelig⟩ := encrypted_not_eligible c' pin (rnd j).1 (rnd j).2
        (hr j).1 (hr j).2.2.1
      refine ⟨?_, Or.inr ⟨j, c', ?_⟩⟩ <;> simp [migOf, helig, hfe]
      exact hnoelig

/-- A migration-ineligible record is untouched by the storage map. -/
theorem migOf_not_eligible (em : List Cred) (c : Cred)
    (h : migEligibleB c = false) : migOf em c = c := by
  simp [migOf, h]

/-- When no stored record is migration-eligible the load effect leaves
the persisted list unchanged. -/
theorem loadFull_stored_id (pin : String) (rnd : Nat → List Nat × List Nat)
    (l : List Cred) (hne : ∀ v ∈ l, migEligibleB v = false) :
    (loadFull pin rnd l).stored = l := by
  unfold loadFull
  dsimp only
  split
  · rfl
  · split
    · rfl
    · show migrateStored l _ = l
      unfold migrateStored
      calc l.map (migOf _)
          = l.map id := List.map_congr_left
            (fun c hc => migOf_not_eligible _ c (hne c hc))
        _ = l := List.map_id l

/-- Decrypting a fresh encryption with the same PIN always succeeds. -/
theorem decrypt_encrypt_isSome (c : Cred) (pin : String) (saltB ivB : List Nat)
    (hs : ∀ b ∈ saltB, b < 256) (hi : ∀ b ∈ ivB, b < 256) :
    (decryptCredential (encryptCredential c pin saltB ivB) pin).isSome = true := by
  unfold encryptCredential decryptCredential
  simp [hexToBytesS_bytesToHexS saltB hs, hexToBytesS_bytesToHexS ivB hi,
        encryptText, decryptText]

/-- Every record persisted by one load still decrypts, provided the
original encrypted records did. -/
theorem loadFull_stored_enc_ok (pin : String) (rnd : Nat → List Nat × List Nat)
    (stored : List Cred) (hr : validDraws rnd)
    (hgood : ∀ v ∈ stored, isEncryptedB v = true →
      (decryptCredential v pin).isSome = true) :
    ∀ v ∈ (loadFull pin rnd stored).stored,
      isEncryptedB v = true → (decryptCredential v pin).isSome = true := by
  intro v hv henc
  rcases (loadFull_stored_chars pin rnd stored hr v hv).2 with hmem | ⟨j, c, rfl⟩
  · exact hgood v hmem henc
  · exact decrypt_encrypt_isSome c pin _ _ (hr j).2.1 (hr j).2.2.2

/-- The decrypt loop counts no tampering when every encrypted record
decrypts. -/
theorem loadLoop_tampered_zero (pin : String) (l : List Cred)
    (h : ∀ v ∈ l, isEncryptedB v = true →
      (decryptCredential v pin).isSome = true) :
    (loadLoop pin l).2 = 0 := by
  rw [loadLoop_tampered, List.length_eq_zero, List.filter_eq_nil_iff]
  intro a ha
  cases henc : isEncryptedB a with
  | false => simp [henc]
  | true =>
    obtain ⟨d, hd⟩ := Option.isSome_iff_exists.mp (h a ha henc)
    simp [henc, hd]

/-- C4 (amended). For every store and valid PIN, one run of load
re-encrypts each legacy plaintext record (iv absent, salt absent, truthy
password) and persists the migrated set: zero migratable plaintext
records remain afterwards, and a second load migrates nothing (the
persisted list is already a fixpoint) — both unconditionally; the second
load reports tamperedCount = 0 exactly under the proviso that every
encrypted record of the original store decrypts under the PIN, in
particular for a store of only plaintext records. -/
theorem migration_idempotent (pin : String) (rnd1 rnd2 : Nat → List Nat × List Nat)
    (stored : List Cred) (h1 : validDraws rnd1) :
    (loadFull pin rnd1 stored).stored.filter migEligibleB = []
    ∧ (loadFull pin rnd2 (loadFull pin rnd1 stored).stored).stored
        = (loadFull pin rnd1 stored).stored
    ∧ ((∀ v ∈ stored, isEncryptedB v = true →
          (decryptCredential v pin).isSome = true) →
        (loadFull pin rnd2 (loadFull pin rnd1 stored).stored).tampered = 0) := by
  have hns : ∀ v ∈ (loadFull pin rnd1 stored).stored, migEligibleB v = false :=
    fun v hv => (loadFull_stored_chars pin rnd1 stored h1 v hv).1
  refine ⟨List.filter_eq_nil_iff.mpr (fun a ha => by simp [hns a ha]),
          loadFull_stored_id pin rnd2 _ hns, fun hgood => ?_⟩
  rw [loadFull_tampered_eq]
  exact loadLoop_tampered_zero pin _ (loadFull_stored_enc_ok pin rnd1 stored h1 hgood)

/-- Concrete instance of the C4 amended migration idempotence. -/
theorem migration_idempotent_witness :
    (loadFull "1234" (fun _ => (List.replicate 16 3, List.replicate 12 7))
      [⟨1, .plain "a.com", .plain "user", .plain "pw1", none, none,
        "", none, []⟩]).stored.filter migEligibleB = []
    ∧ (loadFull "1234" (fun _ => (List.replicate 16 3, List.replicate 12 7))
        (loadFull "1234" (fun _ => (List.replicate 16 3, List.replicate 12 7))
          [⟨1, .plain "a.com", .plain "user", .plain "pw1", none, none,
            "", none, []⟩]).stored).tampered = 0 := by
  have h := migration_idempotent "1234"
    (fun _ => (List.replicate 16 3, List.replicate 12 7))
    (fun _ => (List.replicate 16 3, List.replicate 12 7))
    [⟨1, .plain "a.com", .plain "user", .plain "pw1", none, none, "", none, []⟩]
    (by
      intro n
      exact ⟨(by decide : (List.replicate 16 3 : List Nat) ≠ []),
             (by decide : ∀ b ∈ (List.replicate 16 3 : List Nat), b < 256),
             (by decide : (List.replicate 12 7 : List Nat) ≠ []),
             (by decide : ∀ b ∈ (List.replicate 12 7 : List Nat), b < 256)⟩)
  exact ⟨h.1, h.2.2 (by decide)⟩

/-- C4 counterexample: a store holding one legacy plaintext record AND
one tampered encrypted record satisfies the claim's premise, yet the
second load's tamperedCount is 1, not 0 — the pre-existing corrupted
record fails decryption again on every load. -/
theorem migration_second_tamper_cex :
    migEligibleB (⟨1, .plain "a.com", .plain "user", .plain "pw1",
      none, none, "", none, []⟩ : Cred) = true
    ∧ (loadFull "1234" (fun _ => (List.replicate 16 3, List.replicate 12 7))
        (loadFull "1234" (fun _ => (List.replicate 16 3, List.replicate 12 7))
          [⟨1, .plain "a.com", .plain "user", .plain "pw1", none, none,
            "", none, []⟩,
           ⟨2, .plain "x", .plain "y", .plain "z", some "00", some "0102",
            "", none, []⟩]).stored).tampered = 1 := by
  constructor
  · decide
  · decide

/-- C10. In load, a stored record possessing exactly one of `iv` and
`salt` (or neither, with a falsy password) is classified neither as
encrypted nor as migratable legacy: it is not decrypted or counted in
`tamperedCount` (removing it leaves the count unchanged), it is included
verbatim in the visible list, and migration leaves it unchanged at its
position in the persisted list. -/
theorem halfway_record_passthrough (pin : String)
    (rnd : Nat → List Nat × List Nat) (l1 l2 : List Cred) (c : Cred)
    (henc : isEncryptedB c = false) (hmig : migEligibleB c = false) :
    c ∈ (loadFull pin rnd (l1 ++ c :: l2)).visible
    ∧ (loadFull pin rnd (l1 ++ c :: l2)).tampered
      = (loadFull pin rnd (l1 ++ l2)).tampered
    ∧ (loadFull pin rnd (l1 ++ c :: l2)).stored[l1.length]? = some c := by
  have hget : (l1 ++ c :: l2)[l1.length]? = some c := by
    rw [List.getElem?_append_right (le_refl _)]
    simp
  refine ⟨?_, ?_, ?_⟩
  · rw [loadFull_visible, loadLoop_visible]
    exact List.mem_filterMap.mpr
      ⟨c, by simp, visOf_not_enc pin c henc⟩
  · rw [loadFull_tampered_eq, loadFull_tampered_eq,
        loadLoop_tampered, loadLoop_tampered]
    simp [List.filter_append, List.filter_cons, henc]
  · unfold loadFull
    dsimp only
    split
    · exact hget
    · split
      · exact hget
      · show (migrateStored (l1 ++ c :: l2) _)[l1.length]? = some c
        unfold migrateStored
        rw [List.getElem?_map, hget]
        simp [migOf_not_eligible _ c hmig]

/-- Concrete instance of the C10 pass-through: a record with only an
`iv` field survives load verbatim. -/
theorem halfway_record_passthrough_witness :
    (⟨5, .plain "s", .plain "u", .plain "p", some "ab", none,
      "x", none, []⟩ : Cred) ∈
      (loadFull "1234" (fun _ => (List.replicate 16 3, List.replicate 12 7))
        [⟨5, .plain "s", .plain "u", .plain "p", some "ab", none,
          "x", none, []⟩]).visible :=
  (halfway_record_passthrough "1234"
    (fun _ => (List.replicate 16 3, List.replicate 12 7)) [] []
    ⟨5, .plain "s", .plain "u", .plain "p", some "ab", none, "x", none, []⟩
    (by decide) (by decide)).1

/-- The hex encoding is injective on byte lists. -/
theorem bytesToHexS_inj (bs1 bs2 : List Nat) (h1 : ∀ b ∈ bs1, b < 256)
    (h2 : ∀ b ∈ bs2, b < 256) (he : bytesToHexS bs1 = bytesToHexS bs2) :
    bs1 = bs2 := by
  have hc := congrArg hexToBytesS he
  rwa [hexToBytesS_bytesToHexS bs1 h1, hexToBytesS_bytesToHexS bs2 h2] at hc

/-- C6. `encryptCredential` uses its two fresh random draws as the
record's salt and IV; for any two encryptions (of the same or different
records, with the same or different PINs) whose IV draws differ and
whose salt draws differ, the resulting records have different stored
`iv` values, different stored `salt` values, and pairwise different
ciphertexts in all three encrypted fields — `iv` and `salt` are never
repeated across records or across re-saves. -/
theorem encrypt_freshness (c1 c2 : Cred) (pin1 pin2 : String)
    (s1 i1 s2 i2 : List Nat)
    (hs1 : ∀ b ∈ s1, b < 256) (hs2 : ∀ b ∈ s2, b < 256)
    (hi1 : ∀ b ∈ i1, b < 256) (hi2 : ∀ b ∈ i2, b < 256)
    (hsne : s1 ≠ s2) (hine : i1 ≠ i2) :
    (encryptCredential c1 pin1 s1 i1).iv ≠ (encryptCredential c2 pin2 s2 i2).iv
    ∧ (encryptCredential c1 pin1 s1 i1).salt
      ≠ (encryptCredential c2 pin2 s2 i2).salt
    ∧ (encryptCredential c1 pin1 s1 i1).site
      ≠ (encryptCredential c2 pin2 s2 i2).site
    ∧ (encryptCredential c1 pin1 s1 i1).username
      ≠ (encryptCredential c2 pin2 s2 i2).username
    ∧ (encryptCredential c1 pin1 s1 i1).password
      ≠ (encryptCredential c2 pin2 s2 i2).password := by
  refine ⟨?_, ?_, ?_, ?_, ?_⟩
  · intro h
    exact hine (bytesToHexS_inj i1 i2 hi1 hi2 (Option.some.inj h))
  · intro h
    exact hsne (bytesToHexS_inj s1 s2 hs1 hs2 (Option.some.inj h))
  · intro h
    dsimp only [encryptCredential, encryptText] at h
    injection h with hk hi hv
    exact hine hi
  · intro h
    dsimp only [encryptCredential, encryptText] at h
    injection h with hk hi hv
    exact hine hi
  · intro h
    dsimp only [encryptCredential, encryptText] at h
    injection h with hk hi hv
    exact hine hi

/-- Concrete instance of the C6 freshness property: re-saving the same
record with the same PIN under different draws yields a different stored
IV. -/
theorem encrypt_freshness_witness :
    (encryptCredential
      ⟨1, .plain "a.com", .plain "u", .plain "p", none, none, "", none, []⟩
      "1234" (List.replicate 16 3) (List.replicate 12 7)).iv
    ≠ (encryptCredential
      ⟨1, .plain "a.com", .plain "u", .plain "p", none, none, "", none, []⟩
      "1234" (List.replicate 16 4) (List.replicate 12 8)).iv :=
  (encrypt_freshness
    ⟨1, .plain "a.com", .plain "u", .plain "p", none, none, "", none, []⟩
    ⟨1, .plain "a.com", .plain "u", .plain "p", none, none, "", none, []⟩
    "1234" "1234" (List.replicate 16 3) (List.replicate 12 7)
    (List.replicate 16 4) (List.replicate 12 8)
    (by decide) (by decide) (by decide) (by decide)
    (by decide) (by decide)).1

/-- Modelled from the spec: `hashPin` computes a one-way SHA-256 hex
digest via WebCrypto (`crypto.subtle.digest`), a primitive external to
the repository; the model is an ideal digest keeping the preimage as an
opaque tag used only for equality. -/
structure PinDigest where
  preimage : String
deriving DecidableEq

/-- Embeds `hashPin(pin)` (pinAuth.js lines 247-253) in the ideal-digest
model. -/
def hashPin (pin : String) : PinDigest :=
  ⟨pin⟩

/-- Outcome of the enrollment form submission: the two validation
failures before the confirmation check are the InvalidPinFormat errors
("PIN must be 4-6 digits" / "PIN must contain only numbers"). -/
inductive EnrollResult where
  | pinLengthError
  | pinCharError
  | pinMismatch
  | enrolled (digest : PinDigest)
deriving DecidableEq

/-- Embeds `PinSetup.handleSubmit` (PinSetup.jsx lines 9-29) composed
with `savePin` (pinAuth.js lines 275-278), as a function of the
persisted `rf_pin_hash` slot: length first (4-6), then the regex
`^\d+$`, then the confirmation; only full success computes and persists
the digest. -/
def handleSubmit (stored : Option PinDigest) (pin confirmPin : String) :
    EnrollResult × Option PinDigest :=
  if pin.length < 4 ∨ 6 < pin.length then (.pinLengthError, stored)
  else if ¬ (pin.toList ≠ [] ∧ ∀ c ∈ pin.toList, isDigitChar c) then
    (.pinCharError, stored)
  else if pin ≠ confirmPin then (.pinMismatch, stored)
  else (.enrolled (hashPin pin), some (hashPin pin))

/-- C7. For every candidate PIN, confirmation and persisted digest slot:
a successful enrollment implies the PIN meets the 4-6 numeric-digit
policy and persists exactly that PIN's digest; and every PIN violating
the policy (too short, too long, or containing a non-digit) fails with
one of the two InvalidPinFormat errors while the persisted slot is
unchanged. -/
theorem enroll_policy (stored : Option PinDigest) (pin confirmPin : String) :
    (∀ d, (handleSubmit stored pin confirmPin).1 = .enrolled d →
      pinPolicy pin
      ∧ (handleSubmit stored pin confirmPin).2 = some (hashPin pin))
    ∧ (¬ pinPolicy pin →
      ((handleSubmit stored pin confirmPin).1 = .pinLengthError
        ∨ (handleSubmit stored pin confirmPin).1 = .pinCharError)
      ∧ (handleSubmit stored pin confirmPin).2 = stored) := by
  unfold handleSubmit
  by_cases hlen : pin.length < 4 ∨ 6 < pin.length
  · rw [if_pos hlen]
    exact ⟨(fun d hd => by cases hd), fun _ => ⟨Or.inl rfl, rfl⟩⟩
  · rw [if_neg hlen]
    by_cases hreg : pin.toList ≠ [] ∧ ∀ c ∈ pin.toList, isDigitChar c
    · rw [if_neg (not_not_intro hreg)]
      push_neg at hlen
      have hpol : pinPolicy pin := ⟨hlen.1, hlen.2, hreg.2⟩
      by_cases hconf : pin ≠ confirmPin
      · rw [if_pos hconf]
        exact ⟨(fun d hd => by cases hd), fun hnp => absurd hpol hnp⟩
      · rw [if_neg hconf]
        exact ⟨fun d hd => ⟨hpol, rfl⟩, fun hnp => absurd hpol hnp⟩
    · rw [if_pos hreg]
      exact ⟨(fun d hd => by cases hd), fun _ => ⟨Or.inr rfl, rfl⟩⟩

/-- Concrete instance of the C7 policy: a PIN with a letter is rejected
with an InvalidPinFormat error and nothing is persisted. -/
theorem enroll_policy_witness :
    ((handleSubmit none "12a4" "12a4").1 = EnrollResult.pinLengthError
      ∨ (handleSubmit none "12a4" "12a4").1 = EnrollResult.pinCharError)
    ∧ (handleSubmit none "12a4" "12a4").2 = none :=
  (enroll_policy none "12a4" "12a4").2 (by decide)
